import Mathlib

/-!
Verification of the knowledge-graph memory module of thinking-mcp
(`app/memory.py`, class `KnowledgeGraphManager`).

The persistence file is a sequence of lines; each line is JSON text.  We
embed the file after the JSON codec: a line is either text that fails
`json.loads` (`badJson`), valid JSON that is not an object (`nonObject`,
on which `item.get` raises `AttributeError`), or a JSON object given as
its field list (`object`).  Since `json.dumps` escapes control
characters, each dumped record occupies exactly one line and
`json.loads` inverts `json.dumps`, so this line-level model is exact for
everything the module reads or writes.  Field values occurring in the
records the module handles are strings and lists of strings (`JVal`);
an entity or relation record whose required field holds a value of any
other shape is modelled as a load failure (in Python such a record
builds an ill-typed object that no verified operation produces).
-/

/-- A JSON field value as used by the memory records: a string or a list
of strings. -/
inductive JVal where
  | str : String → JVal
  | strList : List String → JVal
deriving DecidableEq, Repr

/-- One line of the persistence file, seen after the JSON codec. -/
inductive FileLine where
  | badJson : String → FileLine
  | nonObject : FileLine
  | object : List (String × JVal) → FileLine
deriving DecidableEq, Repr

/-- Python exception classes raised by the module's code paths. -/
inductive PyError where
  | valueError : String → PyError
  | keyError : String → PyError
  | attributeError : PyError
  | typeErr : PyError
deriving DecidableEq, Repr

/-- `dict.get`: JSON objects with duplicated keys collapse to the last
binding, so lookup takes the last occurrence of the key. -/
def dictGet (fields : List (String × JVal)) (k : String) : Option JVal :=
  (fields.reverse.find? (fun p => p.1 == k)).map Prod.snd

/-- `{k: v for k, v in item.items() if k != "type"}` in `load_graph`. -/
def stripType (fields : List (String × JVal)) : List (String × JVal) :=
  fields.filter (fun p => !(p.1 == "type"))

/-- `Entity` of `app/memory.py`: name, entity type and ordered
observation list. -/
structure Entity where
  name : String
  entity_type : String
  observations : List String
deriving DecidableEq, Repr

/-- `Relation` of `app/memory.py`: a (from, to, relationType) triple. -/
structure Relation where
  from_entity : String
  to_entity : String
  relation_type : String
deriving DecidableEq, Repr

/-- `KnowledgeGraph` of `app/memory.py`. -/
structure KnowledgeGraph where
  entities : List Entity
  relations : List Relation
deriving DecidableEq, Repr

/-- The triple key used by `create_relations` for dedup. -/
def Relation.key (r : Relation) : String × String × String :=
  (r.from_entity, r.to_entity, r.relation_type)

/-- `Entity.from_dict`: `data["name"]` and `data["entityType"]` raise
`KeyError` when absent; `data.get("observations", [])` defaults to the
empty list.  A present field of the wrong shape is modelled as an
error (see the header comment). -/
def entityFromDict (fields : List (String × JVal)) : Except PyError Entity :=
  match dictGet fields "name" with
  | none => .error (.keyError "name")
  | some nv =>
    match dictGet fields "entityType" with
    | none => .error (.keyError "entityType")
    | some tv =>
      match nv, tv, (dictGet fields "observations").getD (.strList []) with
      | .str n, .str t, .strList obs => .ok ⟨n, t, obs⟩
      | _, _, _ => .error .typeErr

/-- `Relation.from_dict`: `data["from"]`, `data["to"]`,
`data["relationType"]` all raise `KeyError` when absent. -/
def relationFromDict (fields : List (String × JVal)) : Except PyError Relation :=
  match dictGet fields "from" with
  | none => .error (.keyError "from")
  | some fv =>
    match dictGet fields "to" with
    | none => .error (.keyError "to")
    | some tv =>
      match dictGet fields "relationType" with
      | none => .error (.keyError "relationType")
      | some rv =>
        match fv, tv, rv with
        | .str f, .str t, .str r => .ok ⟨f, t, r⟩
        | _, _, _ => .error .typeErr

/-- The body of the per-line loop of `load_graph`: a line that fails
`json.loads` is caught (`except json.JSONDecodeError: continue`) and
skipped (`ok none`); `item.get` on a non-object raises
`AttributeError`, and a missing required field raises `KeyError` — both
escape this loop, being no `JSONDecodeError`.  Lines whose `type` field
is neither `"entity"` nor `"relation"` are ignored (`ok none`). -/
def lineParse : FileLine → Except PyError (Option (Entity ⊕ Relation))
  | .badJson _ => .ok none
  | .nonObject => .error .attributeError
  | .object fields =>
    match dictGet fields "type" with
    | some (.str "entity") =>
      (entityFromDict (stripType fields)).map (fun e => some (.inl e))
    | some (.str "relation") =>
      (relationFromDict (stripType fields)).map (fun r => some (.inr r))
    | _ => .ok none

/-- The per-line loop of `load_graph`: entities and relations are
collected in file order; the first escaping exception aborts the
loop. -/
def loadLines : List FileLine → Except PyError (List Entity × List Relation)
  | [] => .ok ([], [])
  | line :: rest =>
    match lineParse line with
    | .error err => .error err
    | .ok none => loadLines rest
    | .ok (some (.inl e)) =>
      match loadLines rest with
      | .ok (es, rs) => .ok (e :: es, rs)
      | .error err => .error err
    | .ok (some (.inr r)) =>
      match loadLines rest with
      | .ok (es, rs) => .ok (es, r :: rs)
      | .error err => .error err

/-- `KnowledgeGraphManager.load_graph`: the outer
`except Exception: return KnowledgeGraph()` turns any escaped per-line
exception into an empty graph; otherwise the collected entities and
relations are returned. -/
def load_graph (file : List FileLine) : KnowledgeGraph :=
  match loadLines file with
  | .ok (es, rs) => ⟨es, rs⟩
  | .error _ => ⟨[], []⟩

/-- The line `save_graph` writes for an entity:
`{"type": "entity", **entity.to_dict()}`. -/
def entityLine (e : Entity) : FileLine :=
  .object [("type", .str "entity"), ("name", .str e.name),
           ("entityType", .str e.entity_type),
           ("observations", .strList e.observations)]

/-- The line `save_graph` writes for a relation:
`{"type": "relation", **relation.to_dict()}`. -/
def relationLine (r : Relation) : FileLine :=
  .object [("type", .str "relation"), ("from", .str r.from_entity),
           ("to", .str r.to_entity), ("relationType", .str r.relation_type)]

/-- `KnowledgeGraphManager.save_graph`: entity lines first, then
relation lines, in graph order. -/
def save_graph (g : KnowledgeGraph) : List FileLine :=
  g.entities.map entityLine ++ g.relations.map relationLine

theorem lineParse_entityLine (e : Entity) :
    lineParse (entityLine e) = .ok (some (.inl e)) := by
  simp [lineParse, entityLine, dictGet, stripType, entityFromDict, List.find?,
    Except.map]

theorem lineParse_relationLine (r : Relation) :
    lineParse (relationLine r) = .ok (some (.inr r)) := by
  simp [lineParse, relationLine, dictGet, stripType, relationFromDict, List.find?,
    Except.map]

theorem loadLines_entityLine_cons (e : Entity) (rest : List FileLine) :
    loadLines (entityLine e :: rest) =
      match loadLines rest with
      | .ok (es, rs) => .ok (e :: es, rs)
      | .error err => .error err := by
  simp [loadLines, lineParse_entityLine]

theorem loadLines_relationLine_cons (r : Relation) (rest : List FileLine) :
    loadLines (relationLine r :: rest) =
      match loadLines rest with
      | .ok (es, rs) => .ok (es, r :: rs)
      | .error err => .error err := by
  simp [loadLines, lineParse_relationLine]

theorem loadLines_relations (rs : List Relation) :
    loadLines (rs.map relationLine) = .ok ([], rs) := by
  induction rs with
  | nil => rfl
  | cons r rest ih => simp [loadLines_relationLine_cons, ih]

theorem loadLines_save (g : KnowledgeGraph) :
    loadLines (save_graph g) = .ok (g.entities, g.relations) := by
  obtain ⟨es, rs⟩ := g
  simp only [save_graph]
  induction es with
  | nil => simpa using loadLines_relations rs
  | cons e rest ih => simp [loadLines_entityLine_cons, ih]

/-- Round trip at the graph level: loading a file just saved yields the
graph back, exactly (entity order, relation order and observation order
all preserved). -/
theorem load_save_graph (g : KnowledgeGraph) : load_graph (save_graph g) = g := by
  simp [load_graph, loadLines_save]

/-! ## Mutating operations.  Each manager method loads the graph from
the file, transforms it in memory and saves; an exception raised before
the save leaves the file untouched, which the file-level definitions
below make explicit by returning the input file on the error path. -/

/-- The loop body of `create_entities`: a spec whose name is already in
`existing` (the names of the loaded graph plus the names added earlier
in this batch) is skipped with a warning; otherwise it is appended and
its name joins the set.  Input specs are taken already parsed (the
caller passes dicts through `Entity.from_dict`). -/
def createEntitiesAux (existing : List String) : List Entity → List Entity
  | [] => []
  | spec :: rest =>
    if existing.contains spec.name then createEntitiesAux existing rest
    else spec :: createEntitiesAux (spec.name :: existing) rest

/-- `KnowledgeGraphManager.create_entities`: load, skip specs whose name
exists, append the rest, save, return only the newly added entities. -/
def create_entities (file : List FileLine) (specs : List Entity) :
    List FileLine × List Entity :=
  (save_graph ⟨(load_graph file).entities
      ++ createEntitiesAux ((load_graph file).entities.map Entity.name) specs,
    (load_graph file).relations⟩,
   createEntitiesAux ((load_graph file).entities.map Entity.name) specs)

/-- The loop body of `create_relations`: a relation whose
(from, to, relationType) key is already in `existing` is skipped. -/
def createRelationsAux (existing : List (String × String × String)) :
    List Relation → List Relation
  | [] => []
  | r :: rest =>
    if existing.contains r.key then createRelationsAux existing rest
    else r :: createRelationsAux (r.key :: existing) rest

/-- `KnowledgeGraphManager.create_relations`: load, skip triples already
present, append the rest, save, return the newly added relations.  No
check that the endpoint entities exist. -/
def create_relations (file : List FileLine) (rels : List Relation) :
    List FileLine × List Relation :=
  (save_graph ⟨(load_graph file).entities, (load_graph file).relations
      ++ createRelationsAux ((load_graph file).relations.map Relation.key) rels⟩,
   createRelationsAux ((load_graph file).relations.map Relation.key) rels)

/-- One entry of an `add_observations` request. -/
structure ObsInput where
  entityName : String
  contents : List String
deriving DecidableEq, Repr

/-- One entry of an `add_observations` result. -/
structure ObsResult where
  entityName : String
  addedObservations : List String
deriving DecidableEq, Repr

/-- `entity.observations.extend(new)` on the first entity with the
given name (`next(e for e in graph.entities if e.name == name)` finds
the first match, and the loop mutates that object in place). -/
def extendFirst (n : String) (new : List String) : List Entity → List Entity
  | [] => []
  | e :: rest =>
    if e.name == n then { e with observations := e.observations ++ new } :: rest
    else e :: extendFirst n new rest

/-- The loop of `add_observations` over the in-memory graph: entries in
order; a missing entity raises `ValueError` immediately; otherwise the
contents not already in the entity's observation list are appended and
reported. -/
def addObservationsAux :
    KnowledgeGraph → List ObsInput → Except PyError (KnowledgeGraph × List ObsResult)
  | g, [] => .ok (g, [])
  | g, d :: rest =>
    match g.entities.find? (fun e => e.name == d.entityName) with
    | none =>
      .error (.valueError ("Entity with name " ++ d.entityName ++ " not found"))
    | some e =>
      let added := d.contents.filter (fun c => !(e.observations.contains c))
      match addObservationsAux ⟨extendFirst d.entityName added g.entities, g.relations⟩ rest with
      | .ok (g2, res) => .ok (g2, ⟨d.entityName, added⟩ :: res)
      | .error err => .error err

/-- `KnowledgeGraphManager.add_observations` at the file level: the save
happens once, after every entry succeeded; the `ValueError` path leaves
the file as it was. -/
def add_observations (file : List FileLine) (data : List ObsInput) :
    List FileLine × Except PyError (List ObsResult) :=
  match addObservationsAux (load_graph file) data with
  | .ok (g, res) => (save_graph g, .ok res)
  | .error err => (file, .error err)

/-- `KnowledgeGraphManager.delete_entities`: drop entities whose name is
in the list, drop relations with either endpoint in the list, save. -/
def delete_entities (file : List FileLine) (names : List String) : List FileLine :=
  let g := load_graph file
  save_graph
    ⟨g.entities.filter (fun e => !(names.contains e.name)),
     g.relations.filter
       (fun r => !(names.contains r.from_entity) && !(names.contains r.to_entity))⟩

/-! ## Substring matching.  Python's `q in s` is substring containment;
`str.lower()` is modelled by `String.toLower`. -/

/-- Substring scan over character lists, mirroring Python's `in`. -/
def subChars (needle : List Char) : List Char → Bool
  | [] => needle.isEmpty
  | c :: rest => needle.isPrefixOf (c :: rest) || subChars needle rest

/-- `needle in hay` for strings. -/
def strIn (needle hay : String) : Bool := subChars needle.data hay.data

/-- The spec's wording, stated mathematically: `needle` occurs
contiguously inside `hay`. -/
def SubstrSpec (needle hay : String) : Prop :=
  ∃ p s : List Char, hay.data = p ++ needle.data ++ s

/-- The match predicate of `search_nodes`: lowercased query occurs in
the lowercased name, the lowercased type, or some lowercased
observation. -/
def entityMatches (ql : String) (e : Entity) : Bool :=
  strIn ql e.name.toLower || strIn ql e.entity_type.toLower ||
    e.observations.any (fun o => strIn ql o.toLower)

/-- The relation-filtering block shared by `search_nodes` and
`open_nodes`: keep only the relations both of whose endpoints are among
the kept entities' names. -/
def keepRelations (fes : List Entity) (rs : List Relation) : List Relation :=
  rs.filter (fun r => (fes.map Entity.name).contains r.from_entity
    && (fes.map Entity.name).contains r.to_entity)

/-- `KnowledgeGraphManager.search_nodes`: entities matching the
lowercased query, plus the relations both of whose endpoints are among
the matched entities' names. -/
def search_nodes (file : List FileLine) (query : String) : KnowledgeGraph :=
  ⟨(load_graph file).entities.filter (entityMatches query.toLower),
   keepRelations ((load_graph file).entities.filter (entityMatches query.toLower))
     (load_graph file).relations⟩

/-- `KnowledgeGraphManager.open_nodes`: entities whose name is in the
requested set, plus the relations both of whose endpoints are among the
kept entities' names. -/
def open_nodes (file : List FileLine) (names : List String) : KnowledgeGraph :=
  ⟨(load_graph file).entities.filter (fun e => names.contains e.name),
   keepRelations ((load_graph file).entities.filter (fun e => names.contains e.name))
     (load_graph file).relations⟩

/-! ## Classification of file lines, for the malformed-line behaviour of
`load_graph`. -/

/-- A line is fatal when its processing raises an exception that the
per-line handler does not catch: a non-object JSON line, or an
entity/relation record missing a required field. -/
def lineFatal (l : FileLine) : Bool :=
  match lineParse l with
  | .error _ => true
  | .ok _ => false

/-- The entities on the well-formed entity lines of the file, in file
order. -/
def goodEntities (file : List FileLine) : List Entity :=
  file.filterMap fun l =>
    match lineParse l with
    | .ok (some (.inl e)) => some e
    | _ => none

/-- The relations on the well-formed relation lines of the file, in
file order. -/
def goodRelations (file : List FileLine) : List Relation :=
  file.filterMap fun l =>
    match lineParse l with
    | .ok (some (.inr r)) => some r
    | _ => none

theorem loadLines_of_no_fatal (file : List FileLine)
    (h : ∀ l ∈ file, lineFatal l = false) :
    loadLines file = .ok (goodEntities file, goodRelations file) := by
  induction file with
  | nil => rfl
  | cons l rest ih =>
    have hl : lineFatal l = false := h l (by simp)
    have hrest := ih (fun x hx => h x (by simp [hx]))
    rcases hP : lineParse l with err | o
    · simp [lineFatal, hP] at hl
    · rcases o with _ | s
      · simp [loadLines, hP, goodEntities, goodRelations, List.filterMap_cons, hrest]
      · rcases s with e | r
        · simp [loadLines, hP, goodEntities, goodRelations, List.filterMap_cons, hrest]
        · simp [loadLines, hP, goodEntities, goodRelations, List.filterMap_cons, hrest]

theorem loadLines_of_fatal (file : List FileLine)
    (h : ∃ l ∈ file, lineFatal l = true) :
    ∃ err, loadLines file = .error err := by
  induction file with
  | nil => simp at h
  | cons l rest ih =>
    rcases hP : lineParse l with err | o
    · exact ⟨err, by simp [loadLines, hP]⟩
    · have hrest : ∃ x ∈ rest, lineFatal x = true := by
        rcases h with ⟨x, hx, hfat⟩
        rcases List.mem_cons.mp hx with rfl | hx'
        · simp [lineFatal, hP] at hfat
        · exact ⟨x, hx', hfat⟩
      obtain ⟨err, herr⟩ := ih hrest
      rcases o with _ | s
      · exact ⟨err, by simp [loadLines, hP, herr]⟩
      · rcases s with e | r
        · exact ⟨err, by simp [loadLines, hP, herr]⟩
        · exact ⟨err, by simp [loadLines, hP, herr]⟩

/-! ## Bridging lemmas between the Bool-level code and Prop-level
statements. -/

theorem contains_eq_decide_mem {α : Type} [BEq α] [LawfulBEq α] [DecidableEq α]
    (l : List α) (a : α) : l.contains a = decide (a ∈ l) := by
  simp [List.contains, List.elem_eq_mem]

/-- C2: saving any graph and loading it back reproduces the same
entity (name, type, observations) records and the same relation
triples; the stronger statement proved here returns the graph
literally unchanged, so in particular the observation order inside
each entity is preserved. -/
theorem round_trip_save_load (g : KnowledgeGraph) :
    load_graph (save_graph g) = g :=
  load_save_graph g

/-- C3 counterexample: the second line parses as JSON but lacks the
required `name` field; the claim says it is skipped and the first,
well-formed line still loads, but `load_graph` returns the empty graph,
dropping the well-formed line too (the first conjunct shows that line
loads fine on its own). -/
theorem load_graph_missing_field_counterexample :
    load_graph [entityLine ⟨"A", "T", []⟩] = ⟨[⟨"A", "T", []⟩], []⟩ ∧
    load_graph [entityLine ⟨"A", "T", []⟩,
        FileLine.object [("type", JVal.str "entity")]] = ⟨[], []⟩ :=
  ⟨rfl, rfl⟩

/-- C3 amended: a line that fails to parse as JSON is skipped and every
other well-formed line still loads; but a line that parses as JSON and
is not an object, or is an entity/relation record lacking a required
field, escapes the per-line handler and makes `load_graph` return an
empty graph, discarding every line.  In both cases `load_graph` is
total: no error reaches the caller. -/
theorem load_graph_malformed_behaviour (file : List FileLine) :
    ((∀ l ∈ file, lineFatal l = false) →
      load_graph file = ⟨goodEntities file, goodRelations file⟩) ∧
    ((∃ l ∈ file, lineFatal l = true) → load_graph file = ⟨[], []⟩) := by
  constructor
  · intro h
    simp [load_graph, loadLines_of_no_fatal file h]
  · intro h
    obtain ⟨err, herr⟩ := loadLines_of_fatal file h
    simp [load_graph, herr]

theorem load_graph_malformed_behaviour_witness :
    load_graph [FileLine.badJson "oops", entityLine ⟨"A", "T", []⟩]
        = ⟨[⟨"A", "T", []⟩], []⟩ ∧
    load_graph [entityLine ⟨"B", "T", []⟩,
        FileLine.object [("type", JVal.str "relation")]] = ⟨[], []⟩ := by
  constructor
  · exact ((load_graph_malformed_behaviour
      [FileLine.badJson "oops", entityLine ⟨"A", "T", []⟩]).1
        (by decide)).trans (by decide)
  · exact (load_graph_malformed_behaviour
      [entityLine ⟨"B", "T", []⟩,
        FileLine.object [("type", JVal.str "relation")]]).2 (by decide)

/-- C6: `delete_entities` removes exactly the entities whose name is
listed, cascades to every relation with either endpoint listed, and a
list of names matching nothing leaves the stored graph unchanged (the
operation is total — no error for unmatched names). -/
theorem delete_entities_cascade (file : List FileLine) (names : List String) :
    (load_graph (delete_entities file names)).entities
        = (load_graph file).entities.filter (fun e => decide (¬ e.name ∈ names)) ∧
    (load_graph (delete_entities file names)).relations
        = (load_graph file).relations.filter
            (fun r => decide (¬ r.from_entity ∈ names ∧ ¬ r.to_entity ∈ names)) ∧
    ((∀ e ∈ (load_graph file).entities, ¬ e.name ∈ names) →
     (∀ r ∈ (load_graph file).relations,
        ¬ r.from_entity ∈ names ∧ ¬ r.to_entity ∈ names) →
      load_graph (delete_entities file names) = load_graph file) := by
  have hent : (fun e : Entity => !(names.contains e.name))
      = (fun e : Entity => decide (¬ e.name ∈ names)) := by
    funext e
    simp [contains_eq_decide_mem]
  have hrel : (fun r : Relation =>
        !(names.contains r.from_entity) && !(names.contains r.to_entity))
      = (fun r : Relation =>
        decide (¬ r.from_entity ∈ names ∧ ¬ r.to_entity ∈ names)) := by
    funext r
    simp [contains_eq_decide_mem]
  have hload : load_graph (delete_entities file names)
      = ⟨(load_graph file).entities.filter (fun e => decide (¬ e.name ∈ names)),
         (load_graph file).relations.filter
           (fun r => decide (¬ r.from_entity ∈ names ∧ ¬ r.to_entity ∈ names))⟩ := by
    rw [delete_entities, hent, hrel]
    exact load_save_graph _
  refine ⟨by rw [hload], by rw [hload], fun he hr => ?_⟩
  rw [hload]
  have h1 : (load_graph file).entities.filter
      (fun e => decide (¬ e.name ∈ names)) = (load_graph file).entities :=
    List.filter_eq_self.mpr (fun a ha => by simpa using he a ha)
  have h2 : (load_graph file).relations.filter
      (fun r => decide (¬ r.from_entity ∈ names ∧ ¬ r.to_entity ∈ names))
      = (load_graph file).relations :=
    List.filter_eq_self.mpr (fun a ha => by simpa using hr a ha)
  rw [h1, h2]

theorem delete_entities_cascade_witness :
    (load_graph (delete_entities
        [entityLine ⟨"A", "T", []⟩, entityLine ⟨"B", "T", []⟩,
         relationLine ⟨"A", "B", "uses"⟩] ["A", "Zed"])).entities
      = [⟨"B", "T", []⟩] ∧
    (load_graph (delete_entities
        [entityLine ⟨"A", "T", []⟩, entityLine ⟨"B", "T", []⟩,
         relationLine ⟨"A", "B", "uses"⟩] ["A", "Zed"])).relations = [] ∧
    load_graph (delete_entities
        [entityLine ⟨"A", "T", []⟩, relationLine ⟨"A", "A", "likes"⟩] ["Zed"])
      = load_graph [entityLine ⟨"A", "T", []⟩, relationLine ⟨"A", "A", "likes"⟩] := by
  refine ⟨?_, ?_, ?_⟩
  · exact ((delete_entities_cascade
      [entityLine ⟨"A", "T", []⟩, entityLine ⟨"B", "T", []⟩,
       relationLine ⟨"A", "B", "uses"⟩] ["A", "Zed"]).1).trans (by decide)
  · exact ((delete_entities_cascade
      [entityLine ⟨"A", "T", []⟩, entityLine ⟨"B", "T", []⟩,
       relationLine ⟨"A", "B", "uses"⟩] ["A", "Zed"]).2.1).trans (by decide)
  · exact (delete_entities_cascade
      [entityLine ⟨"A", "T", []⟩, relationLine ⟨"A", "A", "likes"⟩] ["Zed"]).2.2
        (by decide) (by decide)

/-- C10: the dedup of `add_observations` filters only against the
entity's existing observation list, not within the request's contents:
adding `["x", "x"]` to an entity without `"x"` appends both copies and
reports both, leaving a duplicated observation in the stored graph. -/
theorem add_observations_intra_batch_duplicates :
    (add_observations [entityLine ⟨"A", "T", []⟩] [⟨"A", ["x", "x"]⟩]).2
        = .ok [⟨"A", ["x", "x"]⟩] ∧
    load_graph (add_observations [entityLine ⟨"A", "T", []⟩] [⟨"A", ["x", "x"]⟩]).1
        = ⟨[⟨"A", "T", ["x", "x"]⟩], []⟩ :=
  ⟨rfl, rfl⟩

/-! ## Lemmas about `add_observations`. -/

theorem extendFirst_names (n : String) (new : List String) (es : List Entity) :
    (extendFirst n new es).map Entity.name = es.map Entity.name := by
  induction es with
  | nil => rfl
  | cons e rest ih =>
    by_cases h : e.name == n
    · simp [extendFirst, h]
    · simp [extendFirst, h, ih]

theorem extendFirst_relations_aux (g : KnowledgeGraph) (n : String)
    (new : List String) :
    (KnowledgeGraph.mk (extendFirst n new g.entities) g.relations).relations
      = g.relations := rfl

theorem addObservationsAux_error (data : List ObsInput) :
    ∀ g : KnowledgeGraph,
      (∃ d ∈ data, ¬ d.entityName ∈ g.entities.map Entity.name) →
      ∃ msg, addObservationsAux g data = .error (.valueError msg) := by
  induction data with
  | nil => intro g h; simp at h
  | cons d rest ih =>
    intro g h
    by_cases hd : d.entityName ∈ g.entities.map Entity.name
    · have hfound : ∃ e, g.entities.find? (fun e => e.name == d.entityName)
          = some e := by
        have : (g.entities.find? (fun e => e.name == d.entityName)).isSome := by
          rw [List.find?_isSome]
          obtain ⟨e, he, hn⟩ := List.mem_map.mp hd
          exact ⟨e, he, by simp [hn]⟩
        exact Option.isSome_iff_exists.mp this
      obtain ⟨e, hfind⟩ := hfound
      have hrest : ∃ d2 ∈ rest,
          ¬ d2.entityName ∈
            (KnowledgeGraph.mk
              (extendFirst d.entityName
                (d.contents.filter (fun c => !(e.observations.contains c)))
                g.entities)
              g.relations).entities.map Entity.name := by
        show ∃ d2 ∈ rest,
          ¬ d2.entityName ∈
            (extendFirst d.entityName
              (d.contents.filter (fun c => !(e.observations.contains c)))
              g.entities).map Entity.name
        rw [extendFirst_names]
        rcases h with ⟨d2, hmem, hmiss⟩
        rcases List.mem_cons.mp hmem with rfl | hmem2
        · exact absurd hd hmiss
        · exact ⟨d2, hmem2, hmiss⟩
      obtain ⟨msg, herr⟩ := ih _ hrest
      refine ⟨msg, ?_⟩
      simp only [addObservationsAux, hfind]
      rw [herr]
    · have hfind : g.entities.find? (fun e => e.name == d.entityName) = none := by
        rw [List.find?_eq_none]
        intro e he
        simp only [beq_iff_eq]
        intro hn
        exact hd (List.mem_map.mpr ⟨e, he, hn⟩)
      exact ⟨"Entity with name " ++ d.entityName ++ " not found",
        by simp [addObservationsAux, hfind]⟩

/-- C1: if any entry of an `add_observations` batch names an entity
absent from the loaded graph (even after earlier entries that named
existing entities), the call raises the `NotFound`-class error — the
`ValueError` with the "not found" message, per the spec's error
taxonomy — and the persisted file is left exactly as it was: the save
is never reached. -/
theorem add_observations_missing_entity_aborts (file : List FileLine)
    (data : List ObsInput)
    (h : ∃ d ∈ data, ¬ d.entityName ∈ (load_graph file).entities.map Entity.name) :
    (add_observations file data).1 = file ∧
    ∃ msg, (add_observations file data).2 = .error (.valueError msg) := by
  obtain ⟨msg, herr⟩ := addObservationsAux_error data (load_graph file) h
  exact ⟨by simp [add_observations, herr], msg, by simp [add_observations, herr]⟩

theorem add_observations_missing_entity_aborts_witness :
    (add_observations [entityLine ⟨"A", "T", []⟩]
        [⟨"A", ["x"]⟩, ⟨"B", ["y"]⟩]).1 = [entityLine ⟨"A", "T", []⟩] ∧
    ∃ msg, (add_observations [entityLine ⟨"A", "T", []⟩]
        [⟨"A", ["x"]⟩, ⟨"B", ["y"]⟩]).2 = .error (.valueError msg) :=
  add_observations_missing_entity_aborts [entityLine ⟨"A", "T", []⟩]
    [⟨"A", ["x"]⟩, ⟨"B", ["y"]⟩] (by decide)


theorem find_extendFirst (nm : String) (new : List String) :
    ∀ (es : List Entity) (e : Entity),
      es.find? (fun x => x.name == nm) = some e →
      ∃ pre post, es = pre ++ e :: post ∧ (∀ x ∈ pre, x.name ≠ nm) ∧
        e.name = nm ∧
        extendFirst nm new es
          = pre ++ { e with observations := e.observations ++ new } :: post := by
  intro es
  induction es with
  | nil => intro e h; simp at h
  | cons x t ih =>
    intro e h
    cases hx : x.name == nm with
    | true =>
      simp only [List.find?_cons, hx] at h
      obtain rfl := Option.some.inj h
      exact ⟨[], t, by simp, by simp, by simpa using hx,
        by simp [extendFirst, hx]⟩
    | false =>
      simp only [List.find?_cons, hx] at h
      obtain ⟨pre, post, h1, h2, h3, h4⟩ := ih e h
      refine ⟨x :: pre, post, by simp [h1], ?_, h3, ?_⟩
      · intro y hy
        rcases List.mem_cons.mp hy with rfl | hy'
        · simpa using hx
        · exact h2 y hy'
      · simp [extendFirst, hx, h4]

/-- C9: for an `add_observations` entry whose entity exists (with `e`
the first entity of that name in the loaded graph), the returned
`addedObservations` are exactly the content strings not already in that
entity's observation list (case-sensitive equality), only those strings
are appended to the entity, and when every content string was already
present the entry reports an empty list. -/
theorem add_observations_dedup (file : List FileLine) (nm : String)
    (contents : List String) (e : Entity)
    (h : (load_graph file).entities.find? (fun x => x.name == nm) = some e) :
    (add_observations file [⟨nm, contents⟩]).2
        = .ok [⟨nm, contents.filter (fun c => decide (¬ c ∈ e.observations))⟩] ∧
    (∃ pre post, (load_graph file).entities = pre ++ e :: post ∧
      (∀ x ∈ pre, x.name ≠ nm) ∧
      (load_graph (add_observations file [⟨nm, contents⟩]).1).entities
        = pre ++ { e with observations := e.observations
            ++ contents.filter (fun c => decide (¬ c ∈ e.observations)) } :: post ∧
      (load_graph (add_observations file [⟨nm, contents⟩]).1).relations
        = (load_graph file).relations) ∧
    ((∀ c ∈ contents, c ∈ e.observations) →
      (add_observations file [⟨nm, contents⟩]).2 = .ok [⟨nm, []⟩]) := by
  have hpred : (fun c => !(e.observations.contains c))
      = (fun c : String => decide (¬ c ∈ e.observations)) := by
    funext c
    simp [contains_eq_decide_mem]
  have hcomp : add_observations file [⟨nm, contents⟩]
      = (save_graph ⟨extendFirst nm
            (contents.filter (fun c => decide (¬ c ∈ e.observations)))
            (load_graph file).entities, (load_graph file).relations⟩,
         .ok [⟨nm, contents.filter (fun c => decide (¬ c ∈ e.observations))⟩]) := by
    rw [add_observations]
    simp only [addObservationsAux, h, hpred]
  have hload : load_graph (add_observations file [⟨nm, contents⟩]).1
      = ⟨extendFirst nm
            (contents.filter (fun c => decide (¬ c ∈ e.observations)))
            (load_graph file).entities, (load_graph file).relations⟩ := by
    rw [hcomp]
    exact load_save_graph _
  obtain ⟨pre, post, h1, h2, _, h4⟩ := find_extendFirst nm
    (contents.filter (fun c => decide (¬ c ∈ e.observations)))
    (load_graph file).entities e h
  refine ⟨by rw [hcomp], ⟨pre, post, h1, h2, ?_, ?_⟩, fun hall => ?_⟩
  · rw [hload]
    exact h4
  · rw [hload]
  · rw [hcomp]
    have hnil : contents.filter (fun c => decide (¬ c ∈ e.observations)) = [] :=
      List.filter_eq_nil_iff.mpr (fun a ha => by simpa using hall a ha)
    rw [hnil]

theorem add_observations_dedup_witness :
    (add_observations [entityLine ⟨"A", "T", ["x"]⟩] [⟨"A", ["x", "y"]⟩]).2
        = .ok [⟨"A", ["y"]⟩] ∧
    (add_observations [entityLine ⟨"A", "T", ["x"]⟩] [⟨"A", ["x"]⟩]).2
        = .ok [⟨"A", []⟩] := by
  constructor
  · exact (add_observations_dedup [entityLine ⟨"A", "T", ["x"]⟩] "A" ["x", "y"]
      ⟨"A", "T", ["x"]⟩ (by rfl)).1.trans (by rfl)
  · exact (add_observations_dedup [entityLine ⟨"A", "T", ["x"]⟩] "A" ["x"]
      ⟨"A", "T", ["x"]⟩ (by rfl)).2.2 (by decide)

/-! ## Lemmas about `create_entities`. -/

theorem createEntitiesAux_single_mem (ex : List String) (spec : Entity)
    (hm : spec.name ∈ ex) : createEntitiesAux ex [spec] = [] := by
  have hc : ex.contains spec.name = true := by
    rw [contains_eq_decide_mem]
    exact decide_eq_true hm
  rw [createEntitiesAux, if_pos hc]
  rfl

theorem createEntitiesAux_single_not_mem (ex : List String) (spec : Entity)
    (hm : ¬ spec.name ∈ ex) : createEntitiesAux ex [spec] = [spec] := by
  have hc : ex.contains spec.name = false := by
    rw [contains_eq_decide_mem]
    exact decide_eq_false hm
  rw [createEntitiesAux, if_neg (by rw [hc]; exact Bool.false_ne_true)]
  rfl

theorem createEntitiesAux_filter (specs : List Entity) :
    ∀ ex : List String, (specs.map Entity.name).Nodup →
      createEntitiesAux ex specs
        = specs.filter (fun s => decide (¬ s.name ∈ ex)) := by
  induction specs with
  | nil => intro ex _; rfl
  | cons s rest ih =>
    intro ex h
    have h' : ¬ s.name ∈ rest.map Entity.name ∧ (rest.map Entity.name).Nodup := by
      rw [List.map_cons, List.nodup_cons] at h
      exact h
    by_cases hm : s.name ∈ ex
    · have hc : ex.contains s.name = true := by
        rw [contains_eq_decide_mem]
        exact decide_eq_true hm
      rw [createEntitiesAux, if_pos hc, ih ex h'.2, List.filter_cons,
        if_neg (by simp [hm])]
    · have hc : ex.contains s.name = false := by
        rw [contains_eq_decide_mem]
        exact decide_eq_false hm
      rw [createEntitiesAux, if_neg (by rw [hc]; exact Bool.false_ne_true),
        ih (s.name :: ex) h'.2, List.filter_cons, if_pos (by simp [hm])]
      congr 1
      refine List.filter_congr (fun x hx => ?_)
      have hne : x.name ≠ s.name := fun hh =>
        h'.1 (hh ▸ List.mem_map_of_mem Entity.name hx)
      simp [List.mem_cons, hne]

theorem create_entities_single_mem (file : List FileLine) (spec : Entity)
    (hm : spec.name ∈ (load_graph file).entities.map Entity.name) :
    create_entities file [spec] = (save_graph (load_graph file), []) := by
  rw [create_entities, createEntitiesAux_single_mem _ _ hm, List.append_nil]

theorem create_entities_single_not_mem (file : List FileLine) (spec : Entity)
    (hm : ¬ spec.name ∈ (load_graph file).entities.map Entity.name) :
    create_entities file [spec]
      = (save_graph ⟨(load_graph file).entities ++ [spec],
          (load_graph file).relations⟩, [spec]) := by
  rw [create_entities, createEntitiesAux_single_not_mem _ _ hm]

/-- The set of names already used after the `create_entities` loop has
walked a batch prefix: the loaded graph's names plus the names of the
prefix specs it appended (`existing_names.add` at memory.py:181). -/
def seenAfter (ex : List String) : List Entity → List String
  | [] => ex
  | s :: rest =>
    if ex.contains s.name then seenAfter ex rest
    else seenAfter (s.name :: ex) rest

theorem createEntitiesAux_append (l1 : List Entity) :
    ∀ (ex : List String) (l2 : List Entity),
      createEntitiesAux ex (l1 ++ l2)
        = createEntitiesAux ex l1 ++ createEntitiesAux (seenAfter ex l1) l2 := by
  induction l1 with
  | nil => intro ex l2; rfl
  | cons s rest ih =>
    intro ex l2
    cases hc : ex.contains s.name with
    | true =>
      rw [List.cons_append, createEntitiesAux, if_pos hc, ih,
        createEntitiesAux, if_pos hc, seenAfter, if_pos hc]
    | false =>
      rw [List.cons_append, createEntitiesAux,
        if_neg (by rw [hc]; exact Bool.false_ne_true), ih,
        createEntitiesAux, if_neg (by rw [hc]; exact Bool.false_ne_true),
        seenAfter, if_neg (by rw [hc]; exact Bool.false_ne_true),
        List.cons_append]

theorem mem_seenAfter (l : List Entity) :
    ∀ (ex : List String) (a : String),
      a ∈ seenAfter ex l ↔ (a ∈ ex ∨ a ∈ l.map Entity.name) := by
  induction l with
  | nil => intro ex a; simp [seenAfter]
  | cons s rest ih =>
    intro ex a
    cases hc : ex.contains s.name with
    | true =>
      have hmem : s.name ∈ ex := by
        rw [contains_eq_decide_mem] at hc
        exact of_decide_eq_true hc
      rw [seenAfter, if_pos hc, ih, List.map_cons, List.mem_cons]
      constructor
      · rintro (h | h)
        · exact .inl h
        · exact .inr (.inr h)
      · rintro (h | h | h)
        · exact .inl h
        · exact .inl (h ▸ hmem)
        · exact .inr h
    | false =>
      rw [seenAfter, if_neg (by rw [hc]; exact Bool.false_ne_true), ih,
        List.mem_cons, List.map_cons, List.mem_cons]
      tauto

/-- C4 counterexample: on an empty file the batch repeats the fresh
name "A" under two different types.  Both specs' names are absent from
the freshly loaded graph, so the claim says both are created and
returned; the code creates and returns only the first, storing one
entity. -/
theorem create_entities_batch_counterexample :
    (create_entities [] [⟨"A", "T", []⟩, ⟨"A", "U", []⟩]).2 = [⟨"A", "T", []⟩] ∧
    load_graph (create_entities [] [⟨"A", "T", []⟩, ⟨"A", "U", []⟩]).1
      = ⟨[⟨"A", "T", []⟩], []⟩ :=
  ⟨rfl, rfl⟩

/-- C4 (amended): creating the same entity spec twice leaves the entity
present exactly once in the stored graph and the second call returns an
empty list (given the initial graph holds the name at most once — true
of every state the manager can produce); within a batch, a spec whose
name already exists in the freshly loaded graph, or repeats the name of
an earlier spec of the same batch, is skipped and contributes nothing,
while a spec whose name does neither is created and returned; the
stored graph is the loaded entities followed by exactly the returned
new entities, relations untouched. -/
theorem create_entities_batch_semantics (file : List FileLine) (spec : Entity)
    (specs1 specs2 : List Entity)
    (hone : ((load_graph file).entities.filter
        (fun e => e.name == spec.name)).length ≤ 1) :
    ((create_entities (create_entities file [spec]).1 [spec]).2 = [] ∧
     ((load_graph (create_entities (create_entities file [spec]).1 [spec]).1).entities.filter
        (fun e => e.name == spec.name)).length = 1) ∧
    ((spec.name ∈ (load_graph file).entities.map Entity.name ∨
        spec.name ∈ specs1.map Entity.name) →
      create_entities file (specs1 ++ spec :: specs2)
        = create_entities file (specs1 ++ specs2)) ∧
    ((¬ spec.name ∈ (load_graph file).entities.map Entity.name ∧
        ¬ spec.name ∈ specs1.map Entity.name) →
      spec ∈ (create_entities file (specs1 ++ spec :: specs2)).2) ∧
    (load_graph (create_entities file (specs1 ++ spec :: specs2)).1
      = ⟨(load_graph file).entities
          ++ (create_entities file (specs1 ++ spec :: specs2)).2,
         (load_graph file).relations⟩) := by
  refine ⟨?_, ?_, ?_, ?_⟩
  · by_cases hm : spec.name ∈ (load_graph file).entities.map Entity.name
    · have h1 := create_entities_single_mem file spec hm
      have hm2 : spec.name
          ∈ (load_graph (save_graph (load_graph file))).entities.map Entity.name := by
        rw [load_save_graph]
        exact hm
      have h2 := create_entities_single_mem (save_graph (load_graph file)) spec hm2
      have e2 : create_entities (create_entities file [spec]).1 [spec]
          = (save_graph (load_graph (save_graph (load_graph file))), []) := by
        rw [h1]
        exact h2
      obtain ⟨e, he, hname⟩ := List.mem_map.mp hm
      have hpos : 0 < ((load_graph file).entities.filter
          (fun x => x.name == spec.name)).length :=
        List.length_pos.mpr (List.ne_nil_of_mem
          (List.mem_filter.mpr ⟨he, by simp [hname]⟩))
      refine ⟨by rw [e2], ?_⟩
      rw [e2]
      show ((load_graph (save_graph
          (load_graph (save_graph (load_graph file))))).entities.filter
          (fun x => x.name == spec.name)).length = 1
      rw [load_save_graph, load_save_graph]
      omega
    · have h1 := create_entities_single_not_mem file spec hm
      have hm2 : spec.name ∈ (load_graph (save_graph
          (⟨(load_graph file).entities ++ [spec],
            (load_graph file).relations⟩ : KnowledgeGraph))).entities.map
            Entity.name := by
        rw [load_save_graph]
        simp
      have h2 := create_entities_single_mem
        (save_graph (⟨(load_graph file).entities ++ [spec],
          (load_graph file).relations⟩ : KnowledgeGraph)) spec hm2
      have e2 : create_entities (create_entities file [spec]).1 [spec]
          = (save_graph (load_graph (save_graph
              (⟨(load_graph file).entities ++ [spec],
                (load_graph file).relations⟩ : KnowledgeGraph))), []) := by
        rw [h1]
        exact h2
      have hnil : (load_graph file).entities.filter
          (fun x => x.name == spec.name) = [] :=
        List.filter_eq_nil_iff.mpr (fun x hx hbeq =>
          hm (List.mem_map.mpr ⟨x, hx, by simpa using hbeq⟩))
      refine ⟨by rw [e2], ?_⟩
      rw [e2]
      show ((load_graph (save_graph (load_graph (save_graph
          (⟨(load_graph file).entities ++ [spec],
            (load_graph file).relations⟩ : KnowledgeGraph))))).entities.filter
          (fun x => x.name == spec.name)).length = 1
      rw [load_save_graph, load_save_graph]
      show (((load_graph file).entities ++ [spec]).filter
          (fun x => x.name == spec.name)).length = 1
      rw [List.filter_append, hnil]
      simp
  · intro hdup
    have hseen : spec.name
        ∈ seenAfter ((load_graph file).entities.map Entity.name) specs1 :=
      (mem_seenAfter specs1 ((load_graph file).entities.map Entity.name)
        spec.name).mpr hdup
    have hc : (seenAfter ((load_graph file).entities.map Entity.name)
        specs1).contains spec.name = true := by
      rw [contains_eq_decide_mem]
      exact decide_eq_true hseen
    have haux : createEntitiesAux ((load_graph file).entities.map Entity.name)
          (specs1 ++ spec :: specs2)
        = createEntitiesAux ((load_graph file).entities.map Entity.name)
          (specs1 ++ specs2) := by
      rw [createEntitiesAux_append, createEntitiesAux_append,
        createEntitiesAux, if_pos hc]
    rw [create_entities, create_entities, haux]
  · rintro ⟨hm1, hm2⟩
    have hseen : ¬ spec.name
        ∈ seenAfter ((load_graph file).entities.map Entity.name) specs1 := by
      rw [mem_seenAfter]
      rintro (h | h)
      · exact hm1 h
      · exact hm2 h
    have hc : (seenAfter ((load_graph file).entities.map Entity.name)
        specs1).contains spec.name = false := by
      rw [contains_eq_decide_mem]
      exact decide_eq_false hseen
    have hsnd : (create_entities file (specs1 ++ spec :: specs2)).2
        = createEntitiesAux ((load_graph file).entities.map Entity.name)
          (specs1 ++ spec :: specs2) := by
      rw [create_entities]
    rw [hsnd, createEntitiesAux_append, createEntitiesAux,
      if_neg (by rw [hc]; exact Bool.false_ne_true)]
    exact List.mem_append.mpr (.inr (List.mem_cons_self spec _))
  · have hfst : (create_entities file (specs1 ++ spec :: specs2)).1
        = save_graph ⟨(load_graph file).entities
            ++ createEntitiesAux ((load_graph file).entities.map Entity.name)
              (specs1 ++ spec :: specs2),
          (load_graph file).relations⟩ := by
      rw [create_entities]
    have hsnd : (create_entities file (specs1 ++ spec :: specs2)).2
        = createEntitiesAux ((load_graph file).entities.map Entity.name)
          (specs1 ++ spec :: specs2) := by
      rw [create_entities]
    rw [hfst, load_save_graph, hsnd]

theorem create_entities_batch_semantics_witness :
    (create_entities (create_entities [] [⟨"A", "T", []⟩]).1 [⟨"A", "T", []⟩]).2
        = [] ∧
    create_entities [] [⟨"A", "T", []⟩, ⟨"A", "U", []⟩, ⟨"B", "V", []⟩]
        = create_entities [] [⟨"A", "T", []⟩, ⟨"B", "V", []⟩] ∧
    (⟨"B", "V", []⟩ : Entity)
        ∈ (create_entities [] [⟨"A", "T", []⟩, ⟨"B", "V", []⟩]).2 := by
  refine ⟨?_, ?_, ?_⟩
  · exact (create_entities_batch_semantics [] ⟨"A", "T", []⟩ [] []
      (by decide)).1.1
  · exact (create_entities_batch_semantics [] ⟨"A", "U", []⟩ [⟨"A", "T", []⟩]
      [⟨"B", "V", []⟩] (by decide)).2.1 (by decide)
  · exact (create_entities_batch_semantics [] ⟨"B", "V", []⟩ [⟨"A", "T", []⟩] []
      (by decide)).2.2.1 (by decide)

/-! ## Lemmas about `create_relations`. -/

theorem createRelationsAux_single_mem (ex : List (String × String × String))
    (r : Relation) (hm : r.key ∈ ex) : createRelationsAux ex [r] = [] := by
  have hc : ex.contains r.key = true := by
    rw [contains_eq_decide_mem]
    exact decide_eq_true hm
  rw [createRelationsAux, if_pos hc]
  rfl

theorem createRelationsAux_single_not_mem (ex : List (String × String × String))
    (r : Relation) (hm : ¬ r.key ∈ ex) : createRelationsAux ex [r] = [r] := by
  have hc : ex.contains r.key = false := by
    rw [contains_eq_decide_mem]
    exact decide_eq_false hm
  rw [createRelationsAux, if_neg (by rw [hc]; exact Bool.false_ne_true)]
  rfl

theorem createRelationsAux_pair (ex : List (String × String × String))
    (r : Relation) : createRelationsAux ex [r, r] = createRelationsAux ex [r] := by
  by_cases hm : r.key ∈ ex
  · have hc : ex.contains r.key = true := by
      rw [contains_eq_decide_mem]
      exact decide_eq_true hm
    rw [createRelationsAux, if_pos hc, createRelationsAux, if_pos hc]
  · have hc : ex.contains r.key = false := by
      rw [contains_eq_decide_mem]
      exact decide_eq_false hm
    rw [createRelationsAux, if_neg (by rw [hc]; exact Bool.false_ne_true)]
    rw [createRelationsAux_single_mem _ _ (by simp)]
    rw [createRelationsAux_single_not_mem _ _ hm]

theorem create_relations_single_mem (file : List FileLine) (r : Relation)
    (hm : r.key ∈ (load_graph file).relations.map Relation.key) :
    create_relations file [r] = (save_graph (load_graph file), []) := by
  rw [create_relations, createRelationsAux_single_mem _ _ hm, List.append_nil]

theorem create_relations_single_not_mem (file : List FileLine) (r : Relation)
    (hm : ¬ r.key ∈ (load_graph file).relations.map Relation.key) :
    create_relations file [r]
      = (save_graph ⟨(load_graph file).entities,
          (load_graph file).relations ++ [r]⟩, [r]) := by
  rw [create_relations, createRelationsAux_single_not_mem _ _ hm]

theorem create_relations_pair_eq (file : List FileLine) (r : Relation) :
    create_relations file [r, r] = create_relations file [r] := by
  rw [create_relations, create_relations, createRelationsAux_pair]

/-- C5: the stored graph never holds two copies of a
(from, to, relationType) triple created through `create_relations` —
repeating the triple across two calls or inside one batch leaves
exactly one stored copy (given an initial graph that does not already
duplicate it) and grows the relation list by at most one — and the
operation consults only the existing relation triples, never the entity
list: a relation whose endpoints were never created as entities is
appended all the same, with no error. -/
theorem create_relations_unique (file : List FileLine) (r : Relation)
    (hone : ((load_graph file).relations.filter
        (fun x => x.key == r.key)).length ≤ 1) :
    (((load_graph (create_relations (create_relations file [r]).1 [r]).1).relations.filter
        (fun x => x.key == r.key)).length = 1 ∧
     (load_graph (create_relations (create_relations file [r]).1 [r]).1).relations.length
        ≤ (load_graph file).relations.length + 1) ∧
    (((load_graph (create_relations file [r, r]).1).relations.filter
        (fun x => x.key == r.key)).length = 1 ∧
     (load_graph (create_relations file [r, r]).1).relations.length
        ≤ (load_graph file).relations.length + 1) ∧
    ((create_relations file [r]).2
        = (if r.key ∈ (load_graph file).relations.map Relation.key
            then [] else [r]) ∧
     load_graph (create_relations file [r]).1
        = ⟨(load_graph file).entities,
           (load_graph file).relations ++ (create_relations file [r]).2⟩) := by
  by_cases hm : r.key ∈ (load_graph file).relations.map Relation.key
  · have h1 := create_relations_single_mem file r hm
    have hm2 : r.key
        ∈ (load_graph (save_graph (load_graph file))).relations.map Relation.key := by
      rw [load_save_graph]
      exact hm
    have h2 := create_relations_single_mem (save_graph (load_graph file)) r hm2
    have e2 : create_relations (create_relations file [r]).1 [r]
        = (save_graph (load_graph (save_graph (load_graph file))), []) := by
      rw [h1]
      exact h2
    obtain ⟨x, hx, hkey⟩ := List.mem_map.mp hm
    have hpos : 0 < ((load_graph file).relations.filter
        (fun y => y.key == r.key)).length :=
      List.length_pos.mpr (List.ne_nil_of_mem
        (List.mem_filter.mpr ⟨hx, by simp [hkey]⟩))
    refine ⟨⟨?_, ?_⟩, ⟨?_, ?_⟩, ?_, ?_⟩
    · rw [e2]
      show ((load_graph (save_graph (load_graph (save_graph
          (load_graph file))))).relations.filter
          (fun y => y.key == r.key)).length = 1
      rw [load_save_graph, load_save_graph]
      omega
    · rw [e2]
      show (load_graph (save_graph (load_graph (save_graph
          (load_graph file))))).relations.length
          ≤ (load_graph file).relations.length + 1
      rw [load_save_graph, load_save_graph]
      omega
    · rw [create_relations_pair_eq, h1]
      show ((load_graph (save_graph (load_graph file))).relations.filter
          (fun y => y.key == r.key)).length = 1
      rw [load_save_graph]
      omega
    · rw [create_relations_pair_eq, h1]
      show (load_graph (save_graph (load_graph file))).relations.length
          ≤ (load_graph file).relations.length + 1
      rw [load_save_graph]
      omega
    · rw [h1, if_pos hm]
    · rw [h1]
      show load_graph (save_graph (load_graph file))
          = ⟨(load_graph file).entities, (load_graph file).relations ++ []⟩
      rw [load_save_graph, List.append_nil]
  · have h1 := create_relations_single_not_mem file r hm
    have hm2 : r.key ∈ (load_graph (save_graph
        (⟨(load_graph file).entities,
          (load_graph file).relations ++ [r]⟩ : KnowledgeGraph))).relations.map
          Relation.key := by
      rw [load_save_graph]
      simp
    have h2 := create_relations_single_mem
      (save_graph (⟨(load_graph file).entities,
        (load_graph file).relations ++ [r]⟩ : KnowledgeGraph)) r hm2
    have e2 : create_relations (create_relations file [r]).1 [r]
        = (save_graph (load_graph (save_graph
            (⟨(load_graph file).entities,
              (load_graph file).relations ++ [r]⟩ : KnowledgeGraph))), []) := by
      rw [h1]
      exact h2
    have hnil : (load_graph file).relations.filter
        (fun y => y.key == r.key) = [] :=
      List.filter_eq_nil_iff.mpr (fun y hy hbeq =>
        hm (List.mem_map.mpr ⟨y, hy, by simpa using hbeq⟩))
    have hcount : (((load_graph file).relations ++ [r]).filter
        (fun y => y.key == r.key)).length = 1 := by
      rw [List.filter_append, hnil]
      simp
    refine ⟨⟨?_, ?_⟩, ⟨?_, ?_⟩, ?_, ?_⟩
    · rw [e2]
      show ((load_graph (save_graph (load_graph (save_graph
          (⟨(load_graph file).entities,
            (load_graph file).relations ++ [r]⟩ : KnowledgeGraph))))).relations.filter
          (fun y => y.key == r.key)).length = 1
      rw [load_save_graph, load_save_graph]
      exact hcount
    · rw [e2]
      show (load_graph (save_graph (load_graph (save_graph
          (⟨(load_graph file).entities,
            (load_graph file).relations ++ [r]⟩ : KnowledgeGraph))))).relations.length
          ≤ (load_graph file).relations.length + 1
      rw [load_save_graph, load_save_graph]
      simp
    · rw [create_relations_pair_eq, h1]
      show ((load_graph (save_graph
          (⟨(load_graph file).entities,
            (load_graph file).relations ++ [r]⟩ : KnowledgeGraph))).relations.filter
          (fun y => y.key == r.key)).length = 1
      rw [load_save_graph]
      exact hcount
    · rw [create_relations_pair_eq, h1]
      show (load_graph (save_graph
          (⟨(load_graph file).entities,
            (load_graph file).relations ++ [r]⟩ : KnowledgeGraph))).relations.length
          ≤ (load_graph file).relations.length + 1
      rw [load_save_graph]
      simp
    · rw [h1, if_neg hm]
    · rw [h1]
      show load_graph (save_graph
          (⟨(load_graph file).entities,
            (load_graph file).relations ++ [r]⟩ : KnowledgeGraph))
          = ⟨(load_graph file).entities, (load_graph file).relations ++ [r]⟩
      rw [load_save_graph]

theorem create_relations_unique_witness :
    (create_relations [] [⟨"Alice", "Bob", "knows"⟩]).2
        = [⟨"Alice", "Bob", "knows"⟩] ∧
    ((load_graph (create_relations (create_relations []
        [⟨"Alice", "Bob", "knows"⟩]).1 [⟨"Alice", "Bob", "knows"⟩]).1).relations.filter
        (fun x => x.key == (⟨"Alice", "Bob", "knows"⟩ : Relation).key)).length = 1 := by
  have h := create_relations_unique [] ⟨"Alice", "Bob", "knows"⟩ (by decide)
  exact ⟨h.2.2.1.trans (by rfl), h.1.1⟩

/-! ## The substring scan agrees with the mathematical definition of
substring occurrence. -/

theorem prefixCheck_iff (n : List Char) :
    ∀ h : List Char, n.isPrefixOf h = true ↔ ∃ s, h = n ++ s := by
  induction n with
  | nil => intro h; exact iff_of_true List.isPrefixOf_nil_left ⟨h, rfl⟩
  | cons a as ih =>
    intro h
    cases h with
    | nil => simp [List.isPrefixOf]
    | cons b bs =>
      simp only [List.isPrefixOf, Bool.and_eq_true, beq_iff_eq]
      constructor
      · rintro ⟨rfl, hp⟩
        obtain ⟨s, rfl⟩ := (ih bs).mp hp
        exact ⟨s, rfl⟩
      · rintro ⟨s, hs⟩
        rw [List.cons_append] at hs
        injection hs with h1 h2
        exact ⟨h1.symm, (ih bs).mpr ⟨s, h2⟩⟩

theorem subChars_iff (n : List Char) :
    ∀ h : List Char, subChars n h = true ↔ ∃ p s, h = p ++ n ++ s := by
  intro h
  induction h with
  | nil =>
    rw [subChars]
    constructor
    · intro he
      rw [List.isEmpty_iff] at he
      exact ⟨[], [], by simp [he]⟩
    · rintro ⟨p, s, hp⟩
      rw [List.isEmpty_iff]
      rcases List.append_eq_nil.mp (List.append_eq_nil.mp hp.symm).1 with ⟨_, h2⟩
      exact h2
  | cons c t ih =>
    rw [subChars]
    simp only [Bool.or_eq_true]
    rw [prefixCheck_iff, ih]
    constructor
    · rintro (⟨s, hs⟩ | ⟨p, s, hs⟩)
      · exact ⟨[], s, by simpa using hs⟩
      · exact ⟨c :: p, s, by simp [hs]⟩
    · rintro ⟨p, s, hs⟩
      cases p with
      | nil => exact .inl ⟨s, by simpa using hs⟩
      | cons x p' =>
        right
        rw [List.cons_append, List.cons_append] at hs
        injection hs with h1 h2
        exact ⟨p', s, h2⟩

theorem strIn_iff (needle hay : String) :
    strIn needle hay = true ↔ SubstrSpec needle hay :=
  subChars_iff needle.data hay.data

/-- C7: an entity is in the `search_nodes` result exactly when it is in
the loaded graph and the lowercased query occurs as a contiguous
substring of the lowercased entity name, of the lowercased entity type,
or of the lowercase of at least one of its observations. -/
theorem search_nodes_entity_membership (file : List FileLine) (query : String)
    (e : Entity) :
    e ∈ (search_nodes file query).entities ↔
      (e ∈ (load_graph file).entities ∧
        (SubstrSpec query.toLower e.name.toLower ∨
         SubstrSpec query.toLower e.entity_type.toLower ∨
         ∃ o ∈ e.observations, SubstrSpec query.toLower o.toLower)) := by
  show e ∈ (load_graph file).entities.filter (entityMatches query.toLower) ↔ _
  rw [List.mem_filter]
  refine and_congr_right (fun _ => ?_)
  simp [entityMatches, strIn_iff, List.any_eq_true, or_assoc]

theorem keepRelations_mem (fes : List Entity) (rs : List Relation) (r : Relation) :
    r ∈ keepRelations fes rs ↔
      (r ∈ rs ∧ (∃ e ∈ fes, e.name = r.from_entity)
        ∧ (∃ e ∈ fes, e.name = r.to_entity)) := by
  rw [keepRelations, List.mem_filter]
  refine and_congr_right (fun _ => ?_)
  simp [contains_eq_decide_mem, List.mem_map]

/-- C8: for both `search_nodes` and `open_nodes` the returned relations
are exactly the loaded relations with both endpoints among the returned
entities (one matched endpoint does not suffice); `open_nodes` returns
exactly the entities whose name was requested, and a requested name
matching no entity changes nothing — no error, no report of the missing
name. -/
theorem search_open_endpoint_filtering (file : List FileLine) (query : String)
    (names : List String) (r : Relation) (n : String) :
    (r ∈ (search_nodes file query).relations ↔
      (r ∈ (load_graph file).relations ∧
        (∃ e ∈ (search_nodes file query).entities, e.name = r.from_entity) ∧
        (∃ e ∈ (search_nodes file query).entities, e.name = r.to_entity))) ∧
    ((open_nodes file names).entities
        = (load_graph file).entities.filter (fun e => decide (e.name ∈ names))) ∧
    (r ∈ (open_nodes file names).relations ↔
      (r ∈ (load_graph file).relations ∧
        (∃ e ∈ (open_nodes file names).entities, e.name = r.from_entity) ∧
        (∃ e ∈ (open_nodes file names).entities, e.name = r.to_entity))) ∧
    ((∀ e ∈ (load_graph file).entities, e.name ≠ n) →
      open_nodes file (n :: names) = open_nodes file names) := by
  refine ⟨keepRelations_mem _ _ r, ?_, keepRelations_mem _ _ r, fun hne => ?_⟩
  · exact List.filter_congr (fun e _ => by rw [contains_eq_decide_mem])
  · have hfes : (load_graph file).entities.filter
        (fun e => (n :: names).contains e.name)
        = (load_graph file).entities.filter (fun e => names.contains e.name) :=
      List.filter_congr (fun e he => by
        rw [contains_eq_decide_mem, contains_eq_decide_mem]
        have hne2 := hne e he
        simp [List.mem_cons, hne2])
    rw [open_nodes, open_nodes, hfes]

theorem search_open_endpoint_filtering_witness :
    open_nodes [entityLine ⟨"Alice", "Person", []⟩] ["Zed", "Alice"]
      = open_nodes [entityLine ⟨"Alice", "Person", []⟩] ["Alice"] :=
  (search_open_endpoint_filtering [entityLine ⟨"Alice", "Person", []⟩] "q"
    ["Alice"] ⟨"a", "b", "c"⟩ "Zed").2.2.2 (by decide)
